import Mathlib

/-!
Verification of the "papu" communication-cards application core: the
`AppData` aggregate, the two reducer variants found in the repository
(`reducer` in `src/src/contexts/AppDataContext.tsx` and `appReducer` in
the unnamed context file `src/unnamed/part_006`), the storage adapter
(`src/unnamed/part_005`), and the debounced persistence scheduler of the
two provider variants.

All TypeScript optional fields become `Option`; JS string `===` becomes
decidable `String` equality; the one `new Date().toISOString()` read per
reducer invocation becomes an explicit `now : String` argument, and the
`uuidv4()` draw an explicit `fresh : String` argument.
-/

set_option maxHeartbeats 1000000

namespace Papu

/-- Communication card record, translated from the `Card` interface in
`src/src/models/types.ts` / `src/unnamed/part_001` (the documented
variant adds an optional `category`; the plain variant simply never
reads it). -/
structure Card where
  id : String
  title : String
  text : Option String := none
  imageUri : Option String := none
  groupIds : List String := []
  favorite : Option Bool := none
  category : Option String := none
  createdAt : String := ""
  updatedAt : String := ""
deriving DecidableEq, Repr

/-- Group record, translated from the `Group` interface in
`src/src/models/types.ts`. -/
structure Group where
  id : String
  name : String
  color : Option String := none
  createdAt : String := ""
  updatedAt : String := ""
deriving DecidableEq, Repr

/-- Root aggregate, translated from the `AppData` interface. -/
structure AppData where
  cards : List Card := []
  groups : List Group := []
deriving DecidableEq, Repr

/-- The canonical empty aggregate `{cards: [], groups: []}`. -/
def emptyAppData : AppData := { cards := [], groups := [] }

/-- The tagged action union shared by both reducer variants
(`Action` in `src/src/contexts/AppDataContext.tsx`, `AppAction` in
`src/unnamed/part_006`; the two unions are isomorphic).  The import mode
`'merge' | 'replace'` of the former and the `merge : boolean` of the
latter are both modelled by the `merge` Boolean. -/
inductive Action where
  | loadData (payload : AppData)
  | addCard (payload : Card)
  | updateCard (payload : Card)
  | deleteCard (id : String)
  | addGroup (payload : Group)
  | updateGroup (payload : Group)
  | deleteGroup (id : String)
  | importData (data : AppData) ( merge : Bool)
  | resetData
deriving DecidableEq, Repr

/-- One `map.set(idOf x, x)` step on the insertion-ordered value list of a
JS `Map`: an existing key is overwritten in place, a new key is appended
at the end. -/
def mapSet {α : Type} (idOf : α → String) (m : List α) (x : α) : List α :=
  if m.any (fun y => decide (idOf y = idOf x)) then
    m.map (fun y => if idOf y = idOf x then x else y)
  else m ++ [x]

/-- `Array.from(map.values())` after inserting all of `existing` and then
all of `incoming` into a fresh `Map` — the merge algorithm of the
`IMPORT_DATA` merge branch of `src/src/contexts/AppDataContext.tsx`
(incoming entries override existing ones by id; new ids are appended). -/
def mergeById {α : Type} (idOf : α → String) (existing incoming : List α) : List α :=
  incoming.foldl (mapSet idOf) (existing.foldl (mapSet idOf) [])

/-- The reducer of `src/src/contexts/AppDataContext.tsx`.  `now` is the
`new Date().toISOString()` value read during the invocation and `fresh`
the `uuidv4()` value drawn when an incoming id is missing (JS falsy,
i.e. the empty string). -/
def reducer (now fresh : String) (state : AppData) (action : Action) : AppData :=
  match action with
  | .loadData payload => payload
  | .addCard incoming =>
      let i := if incoming.id = "" then fresh else incoming.id
      { state with
        cards := state.cards ++ [{ incoming with id := i, createdAt := now, updatedAt := now }] }
  | .updateCard updated =>
      { state with
        cards := state.cards.map (fun c =>
          if c.id = updated.id then { updated with updatedAt := now } else c) }
  | .deleteCard i =>
      { state with cards := state.cards.filter (fun c => decide (c.id ≠ i)) }
  | .addGroup incoming =>
      let i := if incoming.id = "" then fresh else incoming.id
      { state with
        groups := state.groups ++ [{ incoming with id := i, createdAt := now, updatedAt := now }] }
  | .updateGroup updated =>
      { state with
        groups := state.groups.map (fun g =>
          if g.id = updated.id then { updated with updatedAt := now } else g) }
  | .deleteGroup i =>
      { groups := state.groups.filter (fun g => decide (g.id ≠ i)),
        cards := state.cards.map (fun c =>
          { c with groupIds := c.groupIds.filter (fun gid => decide (gid ≠ i)) }) }
  | .importData appData mode =>
      if mode = false then
        { cards := appData.cards, groups := appData.groups }
      else
        { cards := mergeById Card.id state.cards appData.cards,
          groups := mergeById Group.id state.groups appData.groups }
  | .resetData => { cards := [], groups := [] }

/-- The reducer of the documented context variant, `appReducer` in
`src/unnamed/part_006`.  It reads `now` once at the top of the invocation;
it never draws a uuid (callers supply ids). -/
def appReducer (now : String) (state : AppData) (action : Action) : AppData :=
  match action with
  | .loadData payload => payload
  | .addCard payload =>
      { state with
        cards := state.cards ++ [{ payload with createdAt := now, updatedAt := now }] }
  | .updateCard payload =>
      { state with
        cards := state.cards.map (fun card =>
          if card.id = payload.id then
            { payload with createdAt := card.createdAt, updatedAt := now }
          else card) }
  | .deleteCard i =>
      { state with cards := state.cards.filter (fun card => decide (card.id ≠ i)) }
  | .addGroup payload =>
      { state with
        groups := state.groups ++ [{ payload with createdAt := now, updatedAt := now }] }
  | .updateGroup payload =>
      { state with
        groups := state.groups.map (fun group =>
          if group.id = payload.id then
            { payload with createdAt := group.createdAt, updatedAt := now }
          else group) }
  | .deleteGroup groupId =>
      { state with
        cards := state.cards.map (fun card =>
          { card with
            groupIds := card.groupIds.filter (fun i => decide (i ≠ groupId)),
            updatedAt := if card.groupIds.contains groupId then now else card.updatedAt }),
        groups := state.groups.filter (fun group => decide (group.id ≠ groupId)) }
  | .importData data mergeFlag =>
      if mergeFlag = false then
        data
      else
        let newCards := data.cards.filter (fun c =>
          !((state.cards.map Card.id).contains c.id))
        let newGroups := data.groups.filter (fun g =>
          !((state.groups.map Group.id).contains g.id))
        { cards := state.cards ++ newCards, groups := state.groups ++ newGroups }
  | .resetData => { cards := [], groups := [] }

/-- Run a sequence of actions through the `AppDataContext.tsx` reducer
starting from the empty aggregate; each step carries its own clock value
and uuid draw. -/
def runReducer (steps : List (String × String × Action)) : AppData :=
  steps.foldl (fun s p => reducer p.1 p.2.1 s p.2.2) emptyAppData

/-! ## Storage adapter (`src/unnamed/part_005`)

`loadAppData` works on the raw JSON level: the persisted blob is either
absent (`AsyncStorage.getItem` returned null), un-parseable
(`JSON.parse` throws), or parses to a JSON value that the shape check
then inspects.  JSON values are modelled by `JVal`. -/

/-- A JSON value as produced by `JSON.parse`. -/
inductive JVal where
  | jnull
  | jbool (b : Bool)
  | jnum (n : Int)
  | jstr (s : String)
  | jarr (elems : List JVal)
  | jobj (fields : List (String × JVal))

/-- JS truthiness of a parsed JSON value (`!parsed`). -/
def jTruthy : JVal → Bool
  | .jnull => false
  | .jbool b => b
  | .jnum n => n != 0
  | .jstr s => s != ""
  | .jarr _ => true
  | .jobj _ => true

/-- `typeof parsed === 'object'` for a parsed JSON value (null and arrays
are both `'object'` in JS). -/
def jIsObjectType : JVal → Bool
  | .jnull => true
  | .jarr _ => true
  | .jobj _ => true
  | _ => false

/-- JS property access `parsed.k`: `none` models `undefined`. -/
def jGetProp (v : JVal) (k : String) : Option JVal :=
  match v with
  | .jobj fields => (fields.find? (fun f => decide (f.1 = k))).map (fun f => f.2)
  | _ => none

/-- `Array.isArray(x)` on the result of a property access. -/
def jIsArray : Option JVal → Bool
  | some (.jarr _) => true
  | _ => false

/-- The well-formedness predicate of `loadAppData`: the negation of
`!parsed || typeof parsed !== 'object' || !Array.isArray(parsed.cards)
|| !Array.isArray(parsed.groups)`. -/
def wellFormedShape (v : JVal) : Bool :=
  jTruthy v && jIsObjectType v && jIsArray (jGetProp v "cards")
    && jIsArray (jGetProp v "groups")

/-- The raw content of the single storage key, as seen through
`AsyncStorage.getItem` + `JSON.parse`. -/
inductive Blob where
  | missing
  | corrupt
  | parsed (v : JVal)

/-- The canonical empty aggregate `{cards: [], groups: []}` at the JSON
level. -/
def emptyJ : JVal := .jobj [("cards", .jarr []), ("groups", .jarr [])]

/-- The body of `loadAppData` before its surrounding `try`/`catch`:
`JSON.parse` on a corrupt blob throws (`Except.error`); all other paths
return. -/
def loadBody : Blob → Except Unit JVal
  | .missing => .ok emptyJ
  | .corrupt => .error ()
  | .parsed v => .ok (if wellFormedShape v then v else emptyJ)

/-- `loadAppData` from `src/unnamed/part_005`: the whole body is wrapped
in `try`/`catch`, and the `catch` returns the empty aggregate, so the
function is total. -/
def loadAppData (b : Blob) : JVal :=
  match loadBody b with
  | .ok v => v
  | .error _ => emptyJ

/-- `loadAppData` viewed as the async result its caller awaits: since
every path of `loadAppData` returns (its `catch` swallows the only
throw), the promise always resolves — it is `Except.ok` of the total
function, never `Except.error`. -/
def loadAppDataE (b : Blob) : Except Unit JVal := .ok (loadAppData b)

/-- The load effect of `AppDataProvider`
(`src/src/contexts/AppDataContext.tsx`): the `loadError` flag (second
component) is set only when the awaited `loadAppData` call rejects. -/
def providerLoadFlag : Except Unit JVal → JVal × Bool
  | .ok v => (v, false)
  | .error _ => (emptyJ, true)

/-- The composed startup load: provider effect applied to the storage
adapter's result for blob `b`. -/
def systemLoad (b : Blob) : JVal × Bool := providerLoadFlag (loadAppDataE b)

/-! ## Persistence scheduler / provider trace model

Single-threaded event semantics of `AppDataProvider` with its
`useDebouncedEffect` save.  A debounce timer is modelled by
`pending : Option AppData` — the snapshot captured by the effect closure
at the render that scheduled it; re-rendering with a changed `state`
clears the old timer (`clearTimeout`) and schedules a new one, and
`timerFire` runs the effect body of the timer that is due. -/

/-- Provider state for the documented variant (`src/unnamed/part_006`):
reducer state, the two guard refs, the pending debounce timer, the
`loadError` banner flag, and the log of `saveAppData` invocations. -/
structure Prov6 where
  data : AppData
  isInitialLoad : Bool
  hasLoaded : Bool
  pending : Option AppData
  loadError : Bool
  saved : List AppData
deriving DecidableEq, Repr

/-- Mounted provider, before the initial load resolves: reducer state is
the empty aggregate, `isInitialLoadRef` is true, `hasLoadedRef` false,
and the debounced save effect has already scheduled a timer for the
initial state. -/
def prov6Init : Prov6 :=
  { data := emptyAppData, isInitialLoad := true, hasLoaded := false,
    pending := some emptyAppData, loadError := false, saved := [] }

/-- Events driving the provider: the initial load resolving (with the
loaded aggregate) or rejecting, a user dispatch, or a debounce timer
firing after 300 ms of quiet. -/
inductive PEvent where
  | loadOk (d : AppData)
  | loadFail
  | userDispatch (now fresh : String) (a : Action)
  | timerFire

/-- One event step of the documented provider.  On `loadOk`/`loadFail`
the refs are flipped in the same tick as the `LOAD_DATA` dispatch
(`hasLoadedRef.current = true` right after `dispatch`, then
`isInitialLoadRef.current = false` in `finally`), and the re-render
reschedules the debounce timer on the new state.  On `timerFire` the
effect body reads the refs at fire time and skips the save only if
`isInitialLoadRef.current || !hasLoadedRef.current`. -/
def prov6Step (p : Prov6) : PEvent → Prov6
  | .loadOk d =>
      { p with data := d, hasLoaded := true, isInitialLoad := false, pending := some d }
  | .loadFail =>
      { p with
        data := emptyAppData, hasLoaded := true, isInitialLoad := false,
        loadError := true, pending := some emptyAppData }
  | .userDispatch now _ a =>
      let d := appReducer now p.data a
      { p with data := d, pending := some d }
  | .timerFire =>
      match p.pending with
      | none => p
      | some snap =>
          if p.isInitialLoad || !p.hasLoaded then { p with pending := none }
          else { p with pending := none, saved := p.saved ++ [snap] }

/-- Run a list of events through the documented provider from mount. -/
def prov6Run (events : List PEvent) : Prov6 := events.foldl prov6Step prov6Init

/-- Provider state for the plain variant
(`src/src/contexts/AppDataContext.tsx`), whose debounced save effect has
no guard at all. -/
structure ProvN where
  data : AppData
  pending : Option AppData
  saved : List AppData
deriving DecidableEq, Repr

/-- Mounted plain provider (timer already scheduled for the initial
empty state by the effect's first run). -/
def provNInit : ProvN :=
  { data := emptyAppData, pending := some emptyAppData, saved := [] }

/-- One event step of the plain provider: every due timer saves the
captured snapshot, unconditionally.  User dispatches go through the
plain `reducer` with the event's clock value and uuid draw. -/
def provNStep (p : ProvN) : PEvent → ProvN
  | .loadOk d => { p with data := d, pending := some d }
  | .loadFail => { p with data := emptyAppData, pending := some emptyAppData }
  | .userDispatch now fresh a =>
      let d := reducer now fresh p.data a
      { p with data := d, pending := some d }
  | .timerFire =>
      match p.pending with
      | none => p
      | some snap => { p with pending := none, saved := p.saved ++ [snap] }

/-- Run a list of events through the plain provider from mount. -/
def provNRun (events : List PEvent) : ProvN :=
  events.foldl provNStep provNInit

/-- The entry the merge keeps for a pre-existing element `c`: the incoming
element with the same id when there is one, otherwise `c` itself. -/
def overrideBy {α : Type} (idOf : α → String) (incoming : List α) (c : α) : α :=
  (incoming.find? (fun p => decide (idOf p = idOf c))).getD c

/-- The incoming elements whose id does not occur among `existing`. -/
def freshOnly {α : Type} (idOf : α → String) (existing incoming : List α) : List α :=
  incoming.filter (fun p => !((existing.map idOf).contains (idOf p)))

/-! ### Invariants and payload disciplines -/

/-- The data-model invariant of §3 of the specification: cards and groups
are keyed by id with no duplicate ids. -/
def UniqueIds (d : AppData) : Prop :=
  (d.cards.map Card.id).Nodup ∧ (d.groups.map Group.id).Nodup

instance (d : AppData) : Decidable (UniqueIds d) :=
  inferInstanceAs (Decidable ((d.cards.map Card.id).Nodup ∧ (d.groups.map Group.id).Nodup))

/-- Payload discipline for the plain reducer under which a step preserves
id-uniqueness: Add payloads carry an id not already present (after the
uuid substitution for an empty id), and wholesale payloads
(`LOAD_DATA` / `IMPORT_DATA`) are themselves duplicate-free. -/
def freshPayloads (fresh : String) (s : AppData) : Action → Prop
  | .loadData d => UniqueIds d
  | .addCard c => (if c.id = "" then fresh else c.id) ∉ s.cards.map Card.id
  | .addGroup g => (if g.id = "" then fresh else g.id) ∉ s.groups.map Group.id
  | .importData d _ => UniqueIds d
  | _ => True

/-- Same payload discipline for `appReducer`, which never substitutes a
uuid for a missing id. -/
def freshPayloadsA (s : AppData) : Action → Prop
  | .loadData d => UniqueIds d
  | .addCard c => c.id ∉ s.cards.map Card.id
  | .addGroup g => g.id ∉ s.groups.map Group.id
  | .importData d _ => UniqueIds d
  | _ => True

instance (fresh : String) (s : AppData) (a : Action) : Decidable (freshPayloads fresh s a) := by
  cases a <;> (unfold freshPayloads; infer_instance)

instance (s : AppData) (a : Action) : Decidable (freshPayloadsA s a) := by
  cases a <;> (unfold freshPayloadsA; infer_instance)

/-! ### Concrete records for the scenario claims -/

/-- AddCard payload with title "Hello" and no other fields supplied. -/
def helloPayload : Card :=
  { id := "", title := "Hello", text := none, imageUri := none, groupIds := [],
    favorite := none, category := none, createdAt := "", updatedAt := "" }

/-- Existing card `c1` of the merge-import scenario. -/
def c3CardA : Card := { id := "c1", title := "A", groupIds := [], createdAt := "T0", updatedAt := "T1" }

/-- Incoming card `c1` of the merge-import scenario. -/
def c3CardB : Card := { id := "c1", title := "B", groupIds := [], createdAt := "T0", updatedAt := "T2" }

/-- Incoming card `c2` of the merge-import scenario. -/
def c3CardC : Card := { id := "c2", title := "C", groupIds := [], createdAt := "TC", updatedAt := "TC" }

/-- Pre-merge state of the merge-import scenario. -/
def c3State : AppData := { cards := [c3CardA], groups := [] }

/-- Import payload of the merge-import scenario. -/
def c3Payload : AppData := { cards := [c3CardB, c3CardC], groups := [] }

/-- A card payload with a fixed non-empty id, dispatched twice to exhibit
a duplicate. -/
def dupCard : Card := { id := "x", title := "t", groupIds := [] }

/-- A card that belongs to group g1 and was last updated at "T1". -/
def c4Card : Card := { id := "c9", title := "t", groupIds := ["g1"], createdAt := "T0", updatedAt := "T1" }

/-- Concrete state for the delete-group timestamp claims. -/
def c4State : AppData :=
  { cards := [c4Card], groups := [{ id := "g1", name := "Food" }] }

/-- Concrete state with one group and one card referencing it. -/
def c2State : AppData :=
  { cards := [{ id := "c1", title := "t", groupIds := ["g1"] }],
    groups := [{ id := "g1", name := "Food" }] }

/-- A non-empty aggregate as it would come back from storage at startup. -/
def loadedSample : AppData :=
  { cards := [{ id := "c1", title := "A", groupIds := [], createdAt := "T0", updatedAt := "T0" }],
    groups := [] }

/-! ### Lemmas about the JS-`Map` model -/

theorem contains_iff_mem (l : List String) (a : String) :
    l.contains a = true ↔ a ∈ l := by
  constructor
  · exact fun h => List.mem_of_elem_eq_true h
  · exact fun h => List.elem_eq_true_of_mem h

theorem contains_eq_decide_mem (l : List String) (a : String) :
    l.contains a = decide (a ∈ l) := by
  by_cases h : a ∈ l
  · rw [contains_iff_mem _ _ |>.mpr h, decide_eq_true h]
  · rw [decide_eq_false h]
    exact Bool.eq_false_iff.mpr (fun hcc => h (contains_iff_mem _ _ |>.mp hcc))

theorem mapSet_of_not_mem {α : Type} (idOf : α → String) (m : List α) (x : α)
    (h : idOf x ∉ m.map idOf) : mapSet idOf m x = m ++ [x] := by
  have hany : ¬ (m.any (fun y => decide (idOf y = idOf x)) = true) := by
    simp only [List.any_eq_true, decide_eq_true_eq]
    rintro ⟨y, hy, hxy⟩
    exact h (hxy ▸ List.mem_map_of_mem idOf hy)
  unfold mapSet
  rw [if_neg hany]

theorem mapSet_of_mem {α : Type} (idOf : α → String) (m : List α) (x : α)
    (h : idOf x ∈ m.map idOf) :
    mapSet idOf m x = m.map (fun y => if idOf y = idOf x then x else y) := by
  have hany : m.any (fun y => decide (idOf y = idOf x)) = true := by
    simp only [List.any_eq_true, decide_eq_true_eq]
    rcases List.mem_map.mp h with ⟨y, hy, hxy⟩
    exact ⟨y, hy, hxy⟩
  unfold mapSet
  rw [if_pos hany]

theorem idOf_overrideBy {α : Type} (idOf : α → String) (P : List α) (c : α) :
    idOf (overrideBy idOf P c) = idOf c := by
  unfold overrideBy
  cases hf : P.find? (fun p => decide (idOf p = idOf c)) with
  | none => rfl
  | some p =>
      have := List.find?_some hf
      simpa using this

theorem overrideBy_of_not_mem {α : Type} (idOf : α → String) (P : List α) (c : α)
    (h : idOf c ∉ P.map idOf) : overrideBy idOf P c = c := by
  unfold overrideBy
  rw [List.find?_eq_none.mpr]
  · rfl
  · intro p hp
    simp only [decide_eq_true_eq]
    intro hpc
    exact h (hpc ▸ List.mem_map_of_mem idOf hp)

theorem find?_self_of_nodup {α : Type} (idOf : α → String) :
    ∀ (P : List α), (P.map idOf).Nodup → ∀ p ∈ P,
      P.find? (fun q => decide (idOf q = idOf p)) = some p := by
  intro P
  induction P with
  | nil => intro _ p hp; cases hp
  | cons q Q ih =>
      intro hnd p hp
      rcases List.mem_cons.mp hp with rfl | hpQ
      · simp
      · have hq : idOf q ∉ Q.map idOf := by
          have := hnd
          simp only [List.map_cons, List.nodup_cons] at this
          exact this.1
        have hne : ¬ (idOf q = idOf p) := by
          intro hqp
          exact hq (hqp ▸ List.mem_map_of_mem idOf hpQ)
        have hnd' : (Q.map idOf).Nodup := by
          have := hnd
          simp only [List.map_cons, List.nodup_cons] at this
          exact this.2
        have hdec : decide (idOf q = idOf p) = false := by simpa using hne
        simp only [List.find?_cons, hdec]
        exact ih hnd' p hpQ

theorem overrideBy_self_of_nodup {α : Type} (idOf : α → String) (P : List α)
    (hnd : (P.map idOf).Nodup) (p : α) (hp : p ∈ P) :
    overrideBy idOf P p = p := by
  unfold overrideBy
  rw [find?_self_of_nodup idOf P hnd p hp]
  rfl

theorem foldl_mapSet_append {α : Type} (idOf : α → String) :
    ∀ (L m : List α), ((m ++ L).map idOf).Nodup → L.foldl (mapSet idOf) m = m ++ L := by
  intro L
  induction L with
  | nil => intro m _; simp
  | cons a L ih =>
      intro m hnd
      have h1 : (m.map idOf ++ (idOf a :: L.map idOf)).Nodup := by simpa using hnd
      rcases List.nodup_append.mp h1 with ⟨hm, hal, hdisj⟩
      have hnotm : idOf a ∉ m.map idOf := fun hmem =>
        (hdisj hmem) (List.mem_cons_self _ _)
      have hstep : (a :: L).foldl (mapSet idOf) m = L.foldl (mapSet idOf) (m ++ [a]) := by
        simp only [List.foldl_cons, mapSet_of_not_mem idOf m a hnotm]
      have hassoc : (m ++ [a]) ++ L = m ++ a :: L := by simp
      rw [hstep, ih (m ++ [a]) (by rw [hassoc]; exact hnd), hassoc]

theorem foldl_mapSet_char {α : Type} (idOf : α → String) :
    ∀ (P m : List α), (P.map idOf).Nodup →
      P.foldl (mapSet idOf) m =
        m.map (overrideBy idOf P) ++ freshOnly idOf m P := by
  intro P
  induction P with
  | nil =>
      intro m _
      unfold freshOnly
      simp only [List.filter_nil, List.append_nil, List.foldl_nil]
      have h0 : ∀ y : α, overrideBy idOf ([] : List α) y = y := fun y => rfl
      rw [List.map_congr_left (fun y _ => h0 y)]
      simp
  | cons p P ih =>
      intro m hnd
      have hndP : (P.map idOf).Nodup := by
        simp only [List.map_cons, List.nodup_cons] at hnd; exact hnd.2
      have hpP : idOf p ∉ P.map idOf := by
        simp only [List.map_cons, List.nodup_cons] at hnd; exact hnd.1
      have hfold : (p :: P).foldl (mapSet idOf) m = P.foldl (mapSet idOf) (mapSet idOf m p) :=
        List.foldl_cons _ _
      by_cases hm : idOf p ∈ m.map idOf
      · -- key already present: in-place overwrite
        rw [hfold, mapSet_of_mem idOf m p hm, ih _ hndP]
        have hids : (m.map (fun y => if idOf y = idOf p then p else y)).map idOf = m.map idOf := by
          rw [List.map_map]
          refine List.map_congr_left ?_
          intro y _
          by_cases hy : idOf y = idOf p
          · simp [hy]
          · simp [hy]
        have hfresh1 : freshOnly idOf (m.map (fun y => if idOf y = idOf p then p else y)) P
            = freshOnly idOf m P := by
          unfold freshOnly
          rw [hids]
        have hfresh2 : freshOnly idOf m (p :: P) = freshOnly idOf m P := by
          unfold freshOnly
          have hct : (m.map idOf).contains (idOf p) = true := contains_iff_mem _ _ |>.mpr hm
          rw [List.filter_cons, hct]
          simp
        have hmaps : (m.map (fun y => if idOf y = idOf p then p else y)).map (overrideBy idOf P)
            = m.map (overrideBy idOf (p :: P)) := by
          rw [List.map_map]
          refine List.map_congr_left ?_
          intro y _
          simp only [Function.comp_apply]
          by_cases hy : idOf y = idOf p
          · have h2 : overrideBy idOf (p :: P) y = p := by
              unfold overrideBy
              have hd : decide (idOf p = idOf y) = true := by simp [hy]
              simp [List.find?_cons, hd]
            rw [if_pos hy, overrideBy_of_not_mem idOf P p hpP, h2]
          · have h2 : overrideBy idOf (p :: P) y = overrideBy idOf P y := by
              unfold overrideBy
              have hd : decide (idOf p = idOf y) = false := by
                simp only [decide_eq_false_iff_not]
                exact fun hpy => hy hpy.symm
              simp [List.find?_cons, hd]
            rw [if_neg hy, h2]
        rw [hmaps, hfresh1, hfresh2]
      · -- new key: appended at the end
        rw [hfold, mapSet_of_not_mem idOf m p hm, ih _ hndP]
        have hmap2 : (m ++ [p]).map (overrideBy idOf P)
            = m.map (overrideBy idOf P) ++ [p] := by
          rw [List.map_append]
          simp [overrideBy_of_not_mem idOf P p hpP]
        have hmaps : m.map (overrideBy idOf P) = m.map (overrideBy idOf (p :: P)) := by
          refine List.map_congr_left ?_
          intro y hy
          have hne : ¬ (idOf p = idOf y) := by
            intro hpy
            exact hm (hpy ▸ List.mem_map_of_mem idOf hy)
          unfold overrideBy
          have : decide (idOf p = idOf y) = false := by simpa using hne
          simp [List.find?_cons, this]
        have hfresh1 : freshOnly idOf (m ++ [p]) P = freshOnly idOf m P := by
          unfold freshOnly
          refine List.filter_congr ?_
          intro q hq
          have hne : idOf q ≠ idOf p := by
            intro hqp
            exact hpP (hqp ▸ List.mem_map_of_mem idOf hq)
          show (!(((m ++ [p]).map idOf).contains (idOf q))) = !((m.map idOf).contains (idOf q))
          by_cases hcm : idOf q ∈ m.map idOf
          · have h1 : idOf q ∈ (m ++ [p]).map idOf := by
              simp [List.map_append, hcm]
            rw [contains_iff_mem _ _ |>.mpr hcm, contains_iff_mem _ _ |>.mpr h1]
          · have h1 : idOf q ∉ (m ++ [p]).map idOf := by
              simp only [List.map_append, List.mem_append, List.map_cons, List.map_nil,
                List.mem_singleton]
              rintro (h | h)
              · exact hcm h
              · exact hne h
            rw [Bool.eq_false_iff.mpr (fun hcc => h1 (contains_iff_mem _ _ |>.mp hcc)),
              Bool.eq_false_iff.mpr (fun hcc => hcm (contains_iff_mem _ _ |>.mp hcc))]
        have hfresh2 : freshOnly idOf m (p :: P) = p :: freshOnly idOf m P := by
          unfold freshOnly
          have hcf : (m.map idOf).contains (idOf p) = false :=
            Bool.eq_false_iff.mpr (fun hcc => hm (contains_iff_mem _ _ |>.mp hcc))
          rw [List.filter_cons, hcf]
          simp
        rw [hmap2, hmaps, hfresh1, hfresh2]
        simp

theorem mergeById_char {α : Type} (idOf : α → String) (S P : List α)
    (hS : (S.map idOf).Nodup) (hP : (P.map idOf).Nodup) :
    mergeById idOf S P = S.map (overrideBy idOf P) ++ freshOnly idOf S P := by
  unfold mergeById
  rw [foldl_mapSet_append idOf S [] (by simpa using hS), List.nil_append,
    foldl_mapSet_char idOf P S hP]

theorem map_idOf_overrideBy {α : Type} (idOf : α → String) (P S : List α) :
    (S.map (overrideBy idOf P)).map idOf = S.map idOf := by
  rw [List.map_map]
  exact List.map_congr_left (fun c _ => idOf_overrideBy idOf P c)

theorem map_idOf_mergeById {α : Type} (idOf : α → String) (S P : List α)
    (hS : (S.map idOf).Nodup) (hP : (P.map idOf).Nodup) :
    (mergeById idOf S P).map idOf = S.map idOf ++ (freshOnly idOf S P).map idOf := by
  rw [mergeById_char idOf S P hS hP, List.map_append, map_idOf_overrideBy]

theorem freshOnly_contains_false {α : Type} (idOf : α → String) {S P : List α} {q : α}
    (hq : q ∈ freshOnly idOf S P) : (S.map idOf).contains (idOf q) = false := by
  have h2 := (List.mem_filter.mp hq).2
  simpa using h2

theorem nodup_map_mergeById {α : Type} (idOf : α → String) (S P : List α)
    (hS : (S.map idOf).Nodup) (hP : (P.map idOf).Nodup) :
    ((mergeById idOf S P).map idOf).Nodup := by
  rw [map_idOf_mergeById idOf S P hS hP]
  refine List.nodup_append.mpr ⟨hS, ?_, ?_⟩
  · exact hP.sublist (List.Sublist.map idOf (List.filter_sublist P))
  · intro x hxS hxF
    rcases List.mem_map.mp hxF with ⟨q, hqF, rfl⟩
    have hfalse := freshOnly_contains_false idOf hqF
    have hct : (S.map idOf).contains (idOf q) = true := contains_iff_mem _ _ |>.mpr hxS
    rw [hct] at hfalse
    simp at hfalse

theorem overrideBy_fix {α : Type} (idOf : α → String) (P : List α)
    (hP : (P.map idOf).Nodup) (c : α) :
    overrideBy idOf P (overrideBy idOf P c) = overrideBy idOf P c := by
  cases hfind : P.find? (fun p => decide (idOf p = idOf c)) with
  | none =>
      have hc : overrideBy idOf P c = c := by unfold overrideBy; rw [hfind]; rfl
      rw [hc]
      exact hc
  | some p =>
      have hc : overrideBy idOf P c = p := by unfold overrideBy; rw [hfind]; rfl
      have hpP : p ∈ P := List.mem_of_find?_eq_some hfind
      rw [hc, overrideBy_self_of_nodup idOf P hP p hpP]

theorem mem_ids_mergeById {α : Type} (idOf : α → String) (S P : List α)
    (hS : (S.map idOf).Nodup) (hP : (P.map idOf).Nodup) (p : α) (hp : p ∈ P) :
    idOf p ∈ (mergeById idOf S P).map idOf := by
  rw [map_idOf_mergeById idOf S P hS hP]
  by_cases h : idOf p ∈ S.map idOf
  · exact List.mem_append_left _ h
  · refine List.mem_append_right _ ?_
    have hcf : (S.map idOf).contains (idOf p) = false :=
      Bool.eq_false_iff.mpr (fun hcc => h (contains_iff_mem _ _ |>.mp hcc))
    have hpf : p ∈ freshOnly idOf S P := by
      unfold freshOnly
      rw [List.mem_filter]
      exact ⟨hp, by rw [hcf]; rfl⟩
    exact List.mem_map_of_mem idOf hpf

theorem freshOnly_eq_nil {α : Type} (idOf : α → String) (X P : List α)
    (h : ∀ q ∈ P, idOf q ∈ X.map idOf) : freshOnly idOf X P = [] := by
  unfold freshOnly
  rw [List.filter_eq_nil_iff]
  intro q hq
  have hct : (X.map idOf).contains (idOf q) = true := contains_iff_mem _ _ |>.mpr (h q hq)
  rw [hct]
  simp

theorem mergeById_idem {α : Type} (idOf : α → String) (S P : List α)
    (hS : (S.map idOf).Nodup) (hP : (P.map idOf).Nodup) :
    mergeById idOf (mergeById idOf S P) P = mergeById idOf S P := by
  have hMnd := nodup_map_mergeById idOf S P hS hP
  rw [mergeById_char idOf _ P hMnd hP]
  have h2 : freshOnly idOf (mergeById idOf S P) P = [] :=
    freshOnly_eq_nil idOf _ P (fun q hq => mem_ids_mergeById idOf S P hS hP q hq)
  have h3 : (mergeById idOf S P).map (overrideBy idOf P) = mergeById idOf S P := by
    have hpt : ∀ c ∈ mergeById idOf S P, overrideBy idOf P c = c := by
      intro c hc
      rw [mergeById_char idOf S P hS hP] at hc
      rcases List.mem_append.mp hc with hc | hc
      · rcases List.mem_map.mp hc with ⟨c0, _, rfl⟩
        exact overrideBy_fix idOf P hP c0
      · exact overrideBy_self_of_nodup idOf P hP c (List.mem_filter.mp hc).1
    rw [List.map_congr_left hpt]
    simp
  rw [h3, h2, List.append_nil]

theorem freshOnly_append_self {α : Type} (idOf : α → String) (S P : List α) :
    freshOnly idOf (S ++ freshOnly idOf S P) P = [] := by
  refine freshOnly_eq_nil idOf _ P ?_
  intro q hq
  by_cases h : idOf q ∈ S.map idOf
  · rw [List.map_append]
    exact List.mem_append_left _ h
  · have hcf : (S.map idOf).contains (idOf q) = false :=
      Bool.eq_false_iff.mpr (fun hcc => h (contains_iff_mem _ _ |>.mp hcc))
    have hqf : q ∈ freshOnly idOf S P := by
      unfold freshOnly
      rw [List.mem_filter]
      exact ⟨hq, by rw [hcf]; rfl⟩
    rw [List.map_append]
    exact List.mem_append_right _ (List.mem_map_of_mem idOf hqf)

theorem nodup_append_freshOnly {α : Type} (idOf : α → String) (S P : List α)
    (hS : (S.map idOf).Nodup) (hP : (P.map idOf).Nodup) :
    ((S ++ freshOnly idOf S P).map idOf).Nodup := by
  rw [List.map_append]
  refine List.nodup_append.mpr
    ⟨hS, hP.sublist (List.Sublist.map idOf (List.filter_sublist P)), ?_⟩
  intro x hxS hxF
  rcases List.mem_map.mp hxF with ⟨q, hqF, rfl⟩
  have hfalse := freshOnly_contains_false idOf hqF
  have hct : (S.map idOf).contains (idOf q) = true := contains_iff_mem _ _ |>.mpr hxS
  rw [hct] at hfalse
  simp at hfalse

/-! ### Generic list helpers -/

theorem forall2_map_self {α : Type} (R : α → α → Prop) (f : α → α) (L : List α)
    (h : ∀ a ∈ L, R a (f a)) : List.Forall₂ R L (L.map f) := by
  induction L with
  | nil => exact List.Forall₂.nil
  | cons x xs ih =>
      exact List.Forall₂.cons (h x (List.mem_cons_self x xs))
        (ih (fun a ha => h a (List.mem_cons_of_mem x ha)))

theorem map_if_id_eq_noop {α : Type} (idOf : α → String) (pid : String) (g : α → α)
    (L : List α) (hp : pid ∉ L.map idOf) :
    L.map (fun c => if idOf c = pid then g c else c) = L := by
  have h1 : ∀ c ∈ L, (if idOf c = pid then g c else c) = c := by
    intro c hc
    rw [if_neg]
    intro he
    exact hp (he ▸ List.mem_map_of_mem idOf hc)
  rw [List.map_congr_left h1]
  simp

theorem map_ids_of_pointwise {α : Type} (idOf : α → String) (f : α → α) (L : List α)
    (h : ∀ c, idOf (f c) = idOf c) : (L.map f).map idOf = L.map idOf := by
  rw [List.map_map]
  exact List.map_congr_left (fun c _ => h c)

theorem map_ids_update {α : Type} (idOf : α → String) (pid : String) (g : α → α)
    (hg : ∀ c, idOf c = pid → idOf (g c) = idOf c) (L : List α) :
    (L.map (fun c => if idOf c = pid then g c else c)).map idOf = L.map idOf := by
  rw [List.map_map]
  refine List.map_congr_left ?_
  intro c _
  by_cases h : idOf c = pid
  · simp only [Function.comp_apply, if_pos h]
    exact hg c h
  · simp only [Function.comp_apply, if_neg h]

/-! ### Computation-shape lemmas for the reducers -/

theorem reducer_merge_eq (now fresh : String) (s p : AppData) :
    reducer now fresh s (.importData p true) =
      { cards := mergeById Card.id s.cards p.cards,
        groups := mergeById Group.id s.groups p.groups } := rfl

theorem appReducer_merge_eq (now : String) (s p : AppData) :
    appReducer now s (.importData p true) =
      { cards := s.cards ++ freshOnly Card.id s.cards p.cards,
        groups := s.groups ++ freshOnly Group.id s.groups p.groups } := rfl

theorem reducer_updateCard_cards (now fresh : String) (s : AppData) (p : Card) :
    (reducer now fresh s (.updateCard p)).cards =
      s.cards.map (fun c => if c.id = p.id then { p with updatedAt := now } else c) := rfl

theorem reducer_updateCard_groups (now fresh : String) (s : AppData) (p : Card) :
    (reducer now fresh s (.updateCard p)).groups = s.groups := rfl

theorem appReducer_updateCard_cards (now : String) (s : AppData) (p : Card) :
    (appReducer now s (.updateCard p)).cards =
      s.cards.map (fun c =>
        if c.id = p.id then { p with createdAt := c.createdAt, updatedAt := now } else c) := rfl

theorem appReducer_updateCard_groups (now : String) (s : AppData) (p : Card) :
    (appReducer now s (.updateCard p)).groups = s.groups := rfl

theorem reducer_updateGroup_groups (now fresh : String) (s : AppData) (q : Group) :
    (reducer now fresh s (.updateGroup q)).groups =
      s.groups.map (fun g => if g.id = q.id then { q with updatedAt := now } else g) := rfl

theorem reducer_updateGroup_cards (now fresh : String) (s : AppData) (q : Group) :
    (reducer now fresh s (.updateGroup q)).cards = s.cards := rfl

theorem appReducer_updateGroup_groups (now : String) (s : AppData) (q : Group) :
    (appReducer now s (.updateGroup q)).groups =
      s.groups.map (fun g =>
        if g.id = q.id then { q with createdAt := g.createdAt, updatedAt := now } else g) := rfl

theorem appReducer_updateGroup_cards (now : String) (s : AppData) (q : Group) :
    (appReducer now s (.updateGroup q)).cards = s.cards := rfl

theorem reducer_deleteGroup_cards (now fresh gid : String) (s : AppData) :
    (reducer now fresh s (.deleteGroup gid)).cards =
      s.cards.map (fun c =>
        { c with groupIds := c.groupIds.filter (fun x => decide (x ≠ gid)) }) := rfl

theorem reducer_deleteGroup_groups (now fresh gid : String) (s : AppData) :
    (reducer now fresh s (.deleteGroup gid)).groups =
      s.groups.filter (fun g => decide (g.id ≠ gid)) := rfl

theorem appReducer_deleteGroup_cards (now gid : String) (s : AppData) :
    (appReducer now s (.deleteGroup gid)).cards =
      s.cards.map (fun c =>
        { c with
          groupIds := c.groupIds.filter (fun x => decide (x ≠ gid)),
          updatedAt := if c.groupIds.contains gid then now else c.updatedAt }) := rfl

theorem appReducer_deleteGroup_groups (now gid : String) (s : AppData) :
    (appReducer now s (.deleteGroup gid)).groups =
      s.groups.filter (fun g => decide (g.id ≠ gid)) := rfl

theorem appdata_ext {a b : AppData} (h1 : a.cards = b.cards) (h2 : a.groups = b.groups) :
    a = b := by
  cases a; cases b; cases h1; cases h2; rfl

/-! ## Claim theorems -/

/-- C9: from the empty aggregate, AddCard with title "Hello" and no other
fields yields exactly one card with title "Hello", favorite defaulted to
false, empty groupIds, and createdAt = updatedAt = the current timestamp;
DeleteCard with that card's id empties the cards list again.  Proved for
both reducer variants (the plain reducer substitutes the fresh uuid "u1"
for the empty payload id; the documented variant receives the
caller-generated id). -/
theorem add_then_delete_scenario :
    ((reducer "T0" "u1" emptyAppData (.addCard helloPayload)).cards =
      [{ id := "u1", title := "Hello", text := none, imageUri := none, groupIds := [],
         favorite := none, category := none, createdAt := "T0", updatedAt := "T0" }]) ∧
    ((reducer "T0" "u1" emptyAppData (.addCard helloPayload)).cards.map
        (fun c => c.favorite.getD false) = [false]) ∧
    ((reducer "T1" "u2" (reducer "T0" "u1" emptyAppData (.addCard helloPayload))
        (.deleteCard "u1")).cards = []) ∧
    ((appReducer "T0" emptyAppData (.addCard { helloPayload with id := "u1" })).cards =
      [{ id := "u1", title := "Hello", text := none, imageUri := none, groupIds := [],
         favorite := none, category := none, createdAt := "T0", updatedAt := "T0" }]) ∧
    ((appReducer "T1" (appReducer "T0" emptyAppData (.addCard { helloPayload with id := "u1" }))
        (.deleteCard "u1")).cards = []) := by
  refine ⟨rfl, rfl, ?_, rfl, ?_⟩ <;> decide

/-- C2: deleting a group that is present removes the group and prunes its
id from every card's groupIds in the one resulting state of the single
reducer invocation — no returned state retains a dangling reference.
Proved for both reducer variants. -/
theorem deleteGroup_referential_integrity (now fresh gid : String) (s : AppData)
    (_hg : ∃ g ∈ s.groups, g.id = gid) :
    (∀ c ∈ (reducer now fresh s (.deleteGroup gid)).cards, gid ∉ c.groupIds) ∧
    (∀ g ∈ (reducer now fresh s (.deleteGroup gid)).groups, g.id ≠ gid) ∧
    (∀ c ∈ (appReducer now s (.deleteGroup gid)).cards, gid ∉ c.groupIds) ∧
    (∀ g ∈ (appReducer now s (.deleteGroup gid)).groups, g.id ≠ gid) := by
  refine ⟨?_, ?_, ?_, ?_⟩
  · intro c hc
    rw [reducer_deleteGroup_cards] at hc
    rcases List.mem_map.mp hc with ⟨c0, _, rfl⟩
    intro hmem
    have h2 := (List.mem_filter.mp hmem).2
    simp at h2
  · intro g hgm
    rw [reducer_deleteGroup_groups] at hgm
    have h2 := (List.mem_filter.mp hgm).2
    simpa using h2
  · intro c hc
    rw [appReducer_deleteGroup_cards] at hc
    rcases List.mem_map.mp hc with ⟨c0, _, rfl⟩
    intro hmem
    have h2 := (List.mem_filter.mp hmem).2
    simp at h2
  · intro g hgm
    rw [appReducer_deleteGroup_groups] at hgm
    have h2 := (List.mem_filter.mp hgm).2
    simpa using h2

/-- Witness for the referential-integrity theorem at a concrete state. -/
theorem deleteGroup_referential_integrity_witness :
    (∃ g ∈ c2State.groups, g.id = "g1") ∧
    (∀ c ∈ (reducer "N" "F" c2State (.deleteGroup "g1")).cards, "g1" ∉ c.groupIds) := by
  refine ⟨⟨{ id := "g1", name := "Food" }, by decide, rfl⟩, ?_⟩
  exact (deleteGroup_referential_integrity "N" "F" "g1" c2State
    ⟨{ id := "g1", name := "Food" }, by decide, rfl⟩).1

/-- C10: an UpdateCard or UpdateGroup whose payload id matches no existing
entry is a silent no-op — the resulting aggregate equals the input state
exactly — in both reducer variants. -/
theorem update_missing_id_noop (now fresh : String) (s : AppData) (p : Card) (q : Group)
    (hp : p.id ∉ s.cards.map Card.id) (hq : q.id ∉ s.groups.map Group.id) :
    reducer now fresh s (.updateCard p) = s ∧ appReducer now s (.updateCard p) = s ∧
    reducer now fresh s (.updateGroup q) = s ∧ appReducer now s (.updateGroup q) = s := by
  refine ⟨?_, ?_, ?_, ?_⟩
  · refine appdata_ext ?_ (reducer_updateCard_groups now fresh s p)
    rw [reducer_updateCard_cards]
    exact map_if_id_eq_noop Card.id p.id _ s.cards hp
  · refine appdata_ext ?_ (appReducer_updateCard_groups now s p)
    rw [appReducer_updateCard_cards]
    exact map_if_id_eq_noop Card.id p.id _ s.cards hp
  · refine appdata_ext (reducer_updateGroup_cards now fresh s q) ?_
    rw [reducer_updateGroup_groups]
    exact map_if_id_eq_noop Group.id q.id _ s.groups hq
  · refine appdata_ext (appReducer_updateGroup_cards now s q) ?_
    rw [appReducer_updateGroup_groups]
    exact map_if_id_eq_noop Group.id q.id _ s.groups hq

/-- Witness for the no-op update theorem at a concrete state. -/
theorem update_missing_id_noop_witness :
    ({ id := "zz", title := "B", groupIds := [] } : Card).id ∉
      (loadedSample.cards.map Card.id) ∧
    reducer "N" "F" loadedSample (.updateCard { id := "zz", title := "B", groupIds := [] })
      = loadedSample := by
  refine ⟨by decide, ?_⟩
  exact (update_missing_id_noop "N" "F" loadedSample
    { id := "zz", title := "B", groupIds := [] } { id := "zz", name := "B" }
    (by decide) (by decide)).1

/-- C5 (amended): `loadAppData` resolves to the canonical empty aggregate
when the blob is missing, fails to parse, or fails the shape predicate,
and to the parsed value otherwise; it never rejects (the whole body is
inside its `try`/`catch`).  Because it never rejects, the provider's
`loadError` flag — which is set only in the provider's own `catch`
branch — is never signalled, contrary to the claim's "signals a failure
flag" clause. -/
theorem load_fallback_amended (b : Blob) :
    (b = .missing → loadAppData b = emptyJ) ∧
    (b = .corrupt → loadAppData b = emptyJ) ∧
    (∀ v, b = .parsed v → wellFormedShape v = false → loadAppData b = emptyJ) ∧
    (∀ v, b = .parsed v → wellFormedShape v = true → loadAppData b = v) ∧
    loadAppDataE b = .ok (loadAppData b) ∧
    systemLoad b = (loadAppData b, false) := by
  refine ⟨?_, ?_, ?_, ?_, rfl, rfl⟩
  · rintro rfl; rfl
  · rintro rfl; rfl
  · rintro v rfl hw
    simp [loadAppData, loadBody, hw]
  · rintro v rfl hw
    simp [loadAppData, loadBody, hw]

/-- Witness for the load-fallback theorem at concrete blobs. -/
theorem load_fallback_amended_witness :
    loadAppData Blob.missing = emptyJ ∧ loadAppData Blob.corrupt = emptyJ ∧
    loadAppData (Blob.parsed JVal.jnull) = emptyJ ∧
    systemLoad Blob.corrupt = (loadAppData Blob.corrupt, false) := by
  refine ⟨(load_fallback_amended Blob.missing).1 rfl,
    (load_fallback_amended Blob.corrupt).2.1 rfl,
    (load_fallback_amended (Blob.parsed JVal.jnull)).2.2.1 JVal.jnull rfl rfl,
    (load_fallback_amended Blob.corrupt).2.2.2.2.2⟩

/-- C5 counterexample: on a corrupt blob `load()` falls back to the empty
aggregate, but the composed load never reports a failure flag — the
`loadError` flag stays false, refuting "in the failure cases it
additionally signals a failure flag to the caller". -/
theorem load_fallback_cex :
    loadAppData Blob.corrupt = emptyJ ∧
    (systemLoad Blob.corrupt).2 = false ∧
    ¬ ((systemLoad Blob.corrupt).2 = true) := by
  refine ⟨rfl, rfl, ?_⟩
  intro h
  cases h

/-- C7: the persistence scheduler does persist the very first state
materialization produced by the initial Load action.  In the documented
provider the two guard refs are both already flipped when the debounce
timer scheduled by the `LOAD_DATA` re-render fires 300 ms later, so the
loaded snapshot is saved; the plain provider has no guard at all and
additionally saves the transient empty aggregate when the timer fires
before the load resolves. -/
theorem initial_load_echo_saved :
    (prov6Run [.loadOk loadedSample, .timerFire]).saved = [loadedSample] ∧
    (prov6Run [.timerFire, .loadOk loadedSample, .timerFire]).saved = [loadedSample] ∧
    (provNRun [.loadOk loadedSample, .timerFire]).saved = [loadedSample] ∧
    (provNRun [.timerFire]).saved = [emptyAppData] := by
  refine ⟨rfl, rfl, rfl, rfl⟩

/-- C1 (amended): for an UpdateCard whose payload id matches a card,
`appReducer` replaces the matching card's non-id/non-createdAt fields
with the payload's, sets updatedAt to now, and keeps the pre-existing
createdAt; the plain `reducer` also replaces fields and stamps
updatedAt, but takes createdAt from the payload, so it preserves the
pre-existing createdAt only when the payload carries it.  Non-matching
cards and the groups list are untouched in both variants. -/
theorem updateCard_fields_timestamps (now fresh : String) (s : AppData) (p : Card)
    (_hex : ∃ c ∈ s.cards, c.id = p.id) :
    List.Forall₂ (fun c c' =>
        (c.id = p.id → c' = { p with createdAt := c.createdAt, updatedAt := now }) ∧
        (c.id ≠ p.id → c' = c))
      s.cards (appReducer now s (.updateCard p)).cards ∧
    List.Forall₂ (fun c c' =>
        (c.id = p.id → c' = { p with updatedAt := now }) ∧
        (c.id = p.id → p.createdAt = c.createdAt → c'.createdAt = c.createdAt) ∧
        (c.id ≠ p.id → c' = c))
      s.cards (reducer now fresh s (.updateCard p)).cards ∧
    (appReducer now s (.updateCard p)).groups = s.groups ∧
    (reducer now fresh s (.updateCard p)).groups = s.groups := by
  refine ⟨?_, ?_, appReducer_updateCard_groups now s p, reducer_updateCard_groups now fresh s p⟩
  · rw [appReducer_updateCard_cards]
    refine forall2_map_self _ _ _ ?_
    intro c _
    by_cases h : c.id = p.id
    · exact ⟨fun _ => by rw [if_pos h], fun hne => absurd h hne⟩
    · exact ⟨fun he => absurd he h, fun _ => by rw [if_neg h]⟩
  · rw [reducer_updateCard_cards]
    refine forall2_map_self _ _ _ ?_
    intro c _
    by_cases h : c.id = p.id
    · refine ⟨fun _ => by rw [if_pos h], fun _ hpc => ?_, fun hne => absurd h hne⟩
      show (if c.id = p.id then { p with updatedAt := now } else c).createdAt = c.createdAt
      rw [if_pos h]
      exact hpc
    · exact ⟨fun he => absurd he h, fun he => absurd he h, fun _ => by rw [if_neg h]⟩

/-- Witness for the update-card theorem at a concrete state. -/
theorem updateCard_fields_timestamps_witness :
    (∃ c ∈ c3State.cards, c.id = c3CardB.id) ∧
    (reducer "T9" "F" c3State (.updateCard c3CardB)).groups = c3State.groups := by
  refine ⟨⟨c3CardA, by decide, by decide⟩, ?_⟩
  exact (updateCard_fields_timestamps "T9" "F" c3State c3CardB
    ⟨c3CardA, by decide, by decide⟩).2.2.2

/-- C1 counterexample: the plain reducer takes createdAt from the payload.
Updating card c1 (createdAt "T0") with a payload carrying createdAt "T8"
yields a card whose createdAt is "T8", not the pre-existing "T0". -/
theorem updateCard_createdAt_cex :
    (reducer "T9" "F" c3State
        (.updateCard { c3CardB with createdAt := "T8" })).cards.map Card.createdAt = ["T8"] ∧
    c3State.cards.map Card.createdAt = ["T0"] ∧ ("T8" : String) ≠ "T0" := by
  refine ⟨by decide, by decide, by decide⟩

/-- C4 (amended): on DeleteGroup, `appReducer` stamps updatedAt with the
current timestamp exactly for cards whose groupIds contained the deleted
id and returns every other card entirely unchanged; the plain `reducer`
prunes groupIds the same way but never changes any card's updatedAt
(cards without the id are likewise returned unchanged). -/
theorem deleteGroup_updatedAt (now fresh gid : String) (s : AppData) :
    List.Forall₂ (fun c c' =>
        (gid ∈ c.groupIds → c'.updatedAt = now ∧
          c'.groupIds = c.groupIds.filter (fun x => decide (x ≠ gid))) ∧
        (gid ∉ c.groupIds → c' = c))
      s.cards (appReducer now s (.deleteGroup gid)).cards ∧
    List.Forall₂ (fun c c' =>
        c'.updatedAt = c.updatedAt ∧
        c'.groupIds = c.groupIds.filter (fun x => decide (x ≠ gid)) ∧
        (gid ∉ c.groupIds → c' = c))
      s.cards (reducer now fresh s (.deleteGroup gid)).cards := by
  constructor
  · rw [appReducer_deleteGroup_cards]
    refine forall2_map_self _ _ _ ?_
    intro c _
    constructor
    · intro hmem
      have hct : c.groupIds.contains gid = true := contains_iff_mem _ _ |>.mpr hmem
      constructor
      · show (if c.groupIds.contains gid then now else c.updatedAt) = now
        rw [hct, if_pos rfl]
      · rfl
    · intro hmem
      have hcf : c.groupIds.contains gid = false :=
        Bool.eq_false_iff.mpr (fun hcc => hmem (contains_iff_mem _ _ |>.mp hcc))
      have hfil : c.groupIds.filter (fun x => decide (x ≠ gid)) = c.groupIds := by
        rw [List.filter_eq_self]
        intro x hx
        simp only [decide_eq_true_eq]
        intro hxg
        exact hmem (hxg ▸ hx)
      have hup : (if c.groupIds.contains gid then now else c.updatedAt) = c.updatedAt := by
        rw [hcf, if_neg Bool.false_ne_true]
      show ({ c with
          groupIds := c.groupIds.filter (fun x => decide (x ≠ gid)),
          updatedAt := if c.groupIds.contains gid then now else c.updatedAt } : Card) = c
      rw [hfil, hup]
  · rw [reducer_deleteGroup_cards]
    refine forall2_map_self _ _ _ ?_
    intro c _
    refine ⟨rfl, rfl, ?_⟩
    intro hmem
    have hfil : c.groupIds.filter (fun x => decide (x ≠ gid)) = c.groupIds := by
      rw [List.filter_eq_self]
      intro x hx
      simp only [decide_eq_true_eq]
      intro hxg
      exact hmem (hxg ▸ hx)
    show ({ c with groupIds := c.groupIds.filter (fun x => decide (x ≠ gid)) } : Card) = c
    rw [hfil]

/-- Witness for the delete-group timestamp theorem at a concrete state. -/
theorem deleteGroup_updatedAt_witness :
    List.Forall₂ (fun c c' =>
        ("g1" ∈ c.groupIds → c'.updatedAt = "T9" ∧
          c'.groupIds = c.groupIds.filter (fun x => decide (x ≠ "g1"))) ∧
        ("g1" ∉ c.groupIds → c' = c))
      c4State.cards (appReducer "T9" c4State (.deleteGroup "g1")).cards ∧
    (appReducer "T9" c4State (.deleteGroup "g1")).cards.map Card.updatedAt = ["T9"] :=
  ⟨(deleteGroup_updatedAt "T9" "F" "g1" c4State).1, by decide⟩

/-- C4 counterexample: in the plain reducer a card whose groupIds
contained the deleted id keeps its old updatedAt "T1" instead of being
stamped with the current timestamp "T9". -/
theorem deleteGroup_updatedAt_cex :
    ("g1" ∈ c4Card.groupIds) ∧
    (reducer "T9" "F" c4State (.deleteGroup "g1")).cards.map Card.updatedAt = ["T1"] ∧
    ("T1" : String) ≠ "T9" := by
  refine ⟨by decide, by decide, by decide⟩

/-- C3 (amended): in the plain reducer, a Merge import produces the union
by id — every pre-existing entry is replaced by the incoming entry with
its id when one exists (field-for-field, timestamps as given in the
import, via `overrideBy`) and kept otherwise, and incoming entries with
new ids are appended (`freshOnly`); in the concrete scenario, merging
cards {c1 → "B"/"T2"} and {c2 → "C"} into a state holding {c1 → "A"/"T1"}
yields exactly the two cards c1 = "B"/"T2" and c2. -/
theorem import_merge_union (now fresh : String) (s p : AppData)
    (hsc : (s.cards.map Card.id).Nodup) (hsg : (s.groups.map Group.id).Nodup)
    (hpc : (p.cards.map Card.id).Nodup) (hpg : (p.groups.map Group.id).Nodup) :
    reducer now fresh s (.importData p true) =
      { cards := s.cards.map (overrideBy Card.id p.cards) ++ freshOnly Card.id s.cards p.cards,
        groups := s.groups.map (overrideBy Group.id p.groups)
          ++ freshOnly Group.id s.groups p.groups } ∧
    (reducer "N" "F" c3State (.importData c3Payload true)).cards = [c3CardB, c3CardC] := by
  constructor
  · rw [reducer_merge_eq]
    refine appdata_ext ?_ ?_
    · exact mergeById_char Card.id s.cards p.cards hsc hpc
    · exact mergeById_char Group.id s.groups p.groups hsg hpg
  · decide

/-- Witness for the merge-union theorem at the scenario state. -/
theorem import_merge_union_witness :
    reducer "N" "F" c3State (.importData c3Payload true) =
      { cards := c3State.cards.map (overrideBy Card.id c3Payload.cards)
          ++ freshOnly Card.id c3State.cards c3Payload.cards,
        groups := c3State.groups.map (overrideBy Group.id c3Payload.groups)
          ++ freshOnly Group.id c3State.groups c3Payload.groups } ∧
    (reducer "N" "F" c3State (.importData c3Payload true)).cards = [c3CardB, c3CardC] :=
  import_merge_union "N" "F" c3State c3Payload (by decide) (by decide) (by decide) (by decide)

/-- C3 counterexample: the documented `appReducer` keeps the existing
entry on id collision — merging the scenario payload leaves c1 with
title "A" and updatedAt "T1", not the imported "B"/"T2". -/
theorem import_merge_cex :
    (appReducer "N" c3State (.importData c3Payload true)).cards.map
      (fun c => (c.id, c.title, c.updatedAt)) = [("c1", "A", "T1"), ("c2", "C", "TC")] ∧
    ¬ ((appReducer "N" c3State (.importData c3Payload true)).cards.map
        (fun c => (c.id, c.title, c.updatedAt)) = [("c1", "B", "T2"), ("c2", "C", "TC")]) := by
  refine ⟨by decide, by decide⟩

/-- C8: merge import is idempotent in both variants: re-importing the same
payload into an already-merged state leaves the aggregate unchanged —
for the plain reducer under the data-model no-duplicate-ids invariant on
state and payload, and for the documented `appReducer` unconditionally. -/
theorem import_merge_idempotent (now fresh : String) (s p : AppData)
    (hsc : (s.cards.map Card.id).Nodup) (hsg : (s.groups.map Group.id).Nodup)
    (hpc : (p.cards.map Card.id).Nodup) (hpg : (p.groups.map Group.id).Nodup) :
    reducer now fresh (reducer now fresh s (.importData p true)) (.importData p true)
      = reducer now fresh s (.importData p true) ∧
    ∀ (s2 p2 : AppData),
      appReducer now (appReducer now s2 (.importData p2 true)) (.importData p2 true)
        = appReducer now s2 (.importData p2 true) := by
  constructor
  · rw [reducer_merge_eq now fresh s p, reducer_merge_eq now fresh _ p]
    refine appdata_ext ?_ ?_
    · show mergeById Card.id (mergeById Card.id s.cards p.cards) p.cards
        = mergeById Card.id s.cards p.cards
      exact mergeById_idem Card.id s.cards p.cards hsc hpc
    · show mergeById Group.id (mergeById Group.id s.groups p.groups) p.groups
        = mergeById Group.id s.groups p.groups
      exact mergeById_idem Group.id s.groups p.groups hsg hpg
  · intro s2 p2
    rw [appReducer_merge_eq now s2 p2, appReducer_merge_eq now _ p2]
    refine appdata_ext ?_ ?_
    · show (s2.cards ++ freshOnly Card.id s2.cards p2.cards)
          ++ freshOnly Card.id (s2.cards ++ freshOnly Card.id s2.cards p2.cards) p2.cards
        = s2.cards ++ freshOnly Card.id s2.cards p2.cards
      rw [freshOnly_append_self, List.append_nil]
    · show (s2.groups ++ freshOnly Group.id s2.groups p2.groups)
          ++ freshOnly Group.id (s2.groups ++ freshOnly Group.id s2.groups p2.groups) p2.groups
        = s2.groups ++ freshOnly Group.id s2.groups p2.groups
      rw [freshOnly_append_self, List.append_nil]

/-- Witness for the merge-idempotence theorem at the scenario state. -/
theorem import_merge_idempotent_witness :
    reducer "N" "F" (reducer "N" "F" c3State (.importData c3Payload true))
        (.importData c3Payload true)
      = reducer "N" "F" c3State (.importData c3Payload true) :=
  (import_merge_idempotent "N" "F" c3State c3Payload
    (by decide) (by decide) (by decide) (by decide)).1

/-- C6 (amended): starting from the empty aggregate (which has unique
ids), every reducer step preserves id-uniqueness of cards and groups
provided Add payloads carry an id not already present (after uuid
substitution in the plain variant) and Load/Import payloads are
themselves duplicate-free; the reducers do not check this themselves, so
without the proviso AddCard can introduce a duplicate id (see the
counterexample). -/
theorem unique_ids_preserved (now fresh : String) (s : AppData) (a : Action)
    (hs : UniqueIds s) :
    (freshPayloads fresh s a → UniqueIds (reducer now fresh s a)) ∧
    (freshPayloadsA s a → UniqueIds (appReducer now s a)) ∧
    UniqueIds emptyAppData := by
  obtain ⟨hc, hg⟩ := hs
  refine ⟨?_, ?_, ⟨List.nodup_nil, List.nodup_nil⟩⟩
  · intro hf
    cases a with
    | loadData d => exact hf
    | addCard c =>
        refine ⟨?_, hg⟩
        show ((s.cards ++ [{ c with
            id := (if c.id = "" then fresh else c.id), createdAt := now,
            updatedAt := now }]).map Card.id).Nodup
        rw [List.map_append]
        refine List.nodup_append.mpr ⟨hc, List.nodup_singleton _, ?_⟩
        intro x hx hx2
        simp only [List.map_cons, List.map_nil, List.mem_singleton] at hx2
        subst hx2
        exact hf hx
    | updateCard p =>
        refine ⟨?_, hg⟩
        have hseq := map_ids_update Card.id p.id
          (fun _ => { p with updatedAt := now }) (fun c h => h.symm) s.cards
        show ((s.cards.map
          (fun c => if c.id = p.id then { p with updatedAt := now } else c)).map Card.id).Nodup
        rw [hseq]
        exact hc
    | deleteCard i =>
        refine ⟨?_, hg⟩
        show ((s.cards.filter (fun c => decide (c.id ≠ i))).map Card.id).Nodup
        exact hc.sublist (List.Sublist.map Card.id (List.filter_sublist s.cards))
    | addGroup g0 =>
        refine ⟨hc, ?_⟩
        show ((s.groups ++ [{ g0 with
            id := (if g0.id = "" then fresh else g0.id), createdAt := now,
            updatedAt := now }]).map Group.id).Nodup
        rw [List.map_append]
        refine List.nodup_append.mpr ⟨hg, List.nodup_singleton _, ?_⟩
        intro x hx hx2
        simp only [List.map_cons, List.map_nil, List.mem_singleton] at hx2
        subst hx2
        exact hf hx
    | updateGroup q =>
        refine ⟨hc, ?_⟩
        have hseq := map_ids_update Group.id q.id
          (fun _ => { q with updatedAt := now }) (fun g h => h.symm) s.groups
        show ((s.groups.map
          (fun g => if g.id = q.id then { q with updatedAt := now } else g)).map Group.id).Nodup
        rw [hseq]
        exact hg
    | deleteGroup i =>
        constructor
        · have hseq : (s.cards.map (fun c =>
              { c with groupIds := c.groupIds.filter (fun x => decide (x ≠ i)) })).map Card.id
                = s.cards.map Card.id :=
            map_ids_of_pointwise Card.id _ s.cards (fun c => rfl)
          show ((s.cards.map (fun c =>
              { c with groupIds := c.groupIds.filter (fun x => decide (x ≠ i)) })).map
              Card.id).Nodup
          rw [hseq]
          exact hc
        · show ((s.groups.filter (fun g => decide (g.id ≠ i))).map Group.id).Nodup
          exact hg.sublist (List.Sublist.map Group.id (List.filter_sublist s.groups))
    | importData d mflag =>
        cases mflag with
        | false => exact hf
        | true =>
            exact ⟨nodup_map_mergeById Card.id s.cards d.cards hc hf.1,
              nodup_map_mergeById Group.id s.groups d.groups hg hf.2⟩
    | resetData => exact ⟨List.nodup_nil, List.nodup_nil⟩
  · intro hf
    cases a with
    | loadData d => exact hf
    | addCard c =>
        refine ⟨?_, hg⟩
        show ((s.cards ++ [{ c with createdAt := now, updatedAt := now }]).map Card.id).Nodup
        rw [List.map_append]
        refine List.nodup_append.mpr ⟨hc, List.nodup_singleton _, ?_⟩
        intro x hx hx2
        simp only [List.map_cons, List.map_nil, List.mem_singleton] at hx2
        subst hx2
        exact hf hx
    | updateCard p =>
        refine ⟨?_, hg⟩
        have hseq := map_ids_update Card.id p.id
          (fun c => { p with createdAt := c.createdAt, updatedAt := now })
          (fun c h => h.symm) s.cards
        show ((s.cards.map (fun c =>
          if c.id = p.id then { p with createdAt := c.createdAt, updatedAt := now } else c)).map
          Card.id).Nodup
        rw [hseq]
        exact hc
    | deleteCard i =>
        refine ⟨?_, hg⟩
        show ((s.cards.filter (fun c => decide (c.id ≠ i))).map Card.id).Nodup
        exact hc.sublist (List.Sublist.map Card.id (List.filter_sublist s.cards))
    | addGroup g0 =>
        refine ⟨hc, ?_⟩
        show ((s.groups ++ [{ g0 with createdAt := now, updatedAt := now }]).map Group.id).Nodup
        rw [List.map_append]
        refine List.nodup_append.mpr ⟨hg, List.nodup_singleton _, ?_⟩
        intro x hx hx2
        simp only [List.map_cons, List.map_nil, List.mem_singleton] at hx2
        subst hx2
        exact hf hx
    | updateGroup q =>
        refine ⟨hc, ?_⟩
        have hseq := map_ids_update Group.id q.id
          (fun g => { q with createdAt := g.createdAt, updatedAt := now })
          (fun g h => h.symm) s.groups
        show ((s.groups.map (fun g =>
          if g.id = q.id then { q with createdAt := g.createdAt, updatedAt := now } else g)).map
          Group.id).Nodup
        rw [hseq]
        exact hg
    | deleteGroup i =>
        constructor
        · have hseq : (s.cards.map (fun c =>
              { c with
                groupIds := c.groupIds.filter (fun x => decide (x ≠ i)),
                updatedAt := if c.groupIds.contains i then now else c.updatedAt })).map Card.id
                = s.cards.map Card.id :=
            map_ids_of_pointwise Card.id _ s.cards (fun c => rfl)
          show ((s.cards.map (fun c =>
              { c with
                groupIds := c.groupIds.filter (fun x => decide (x ≠ i)),
                updatedAt := if c.groupIds.contains i then now else c.updatedAt })).map
              Card.id).Nodup
          rw [hseq]
          exact hc
        · show ((s.groups.filter (fun g => decide (g.id ≠ i))).map Group.id).Nodup
          exact hg.sublist (List.Sublist.map Group.id (List.filter_sublist s.groups))
    | importData d mflag =>
        cases mflag with
        | false => exact hf
        | true =>
            exact ⟨nodup_append_freshOnly Card.id s.cards d.cards hc hf.1,
              nodup_append_freshOnly Group.id s.groups d.groups hg hf.2⟩
    | resetData => exact ⟨List.nodup_nil, List.nodup_nil⟩

/-- Witness for the uniqueness-preservation theorem at a concrete step. -/
theorem unique_ids_preserved_witness :
    UniqueIds c3State ∧ freshPayloads "u9" c3State (.addCard { dupCard with id := "z" }) ∧
    UniqueIds (reducer "T0" "u9" c3State (.addCard { dupCard with id := "z" })) := by
  refine ⟨by decide, by decide, ?_⟩
  exact (unique_ids_preserved "T0" "u9" c3State (.addCard { dupCard with id := "z" })
    (by decide)).1 (by decide)

/-- C6 counterexample: dispatching AddCard twice with the same non-empty
payload id "x" from the empty aggregate yields a reachable state with two
cards of id "x" — the reducer performs no duplicate check. -/
theorem unique_ids_cex :
    (runReducer [("T0", "u1", .addCard dupCard),
        ("T1", "u2", .addCard dupCard)]).cards.map Card.id = ["x", "x"] ∧
    ¬ UniqueIds (runReducer [("T0", "u1", .addCard dupCard),
        ("T1", "u2", .addCard dupCard)]) := by
  refine ⟨by decide, by decide⟩

end Papu
